import Mathlib

/-!
Verification of the Bear notes MCP server (`src/bear.ts`, `src/server.ts`,
`src/database.ts`, `src/logger.ts`) against its natural-language
specification.

The embedding models:
* the SQLite store (`ZSFNOTE`, `ZSFNOTETAG`, `Z_5TAGS`) as lists of rows;
* the read path (`searchNotes`, `getNoteContent`, `listNotesByTag`,
  `getAllTags`, `listArchivedNotes`) as pure functions over that store,
  including SQLite `LIKE` semantics (ASCII case folding, `%` and `_`
  wildcards), `ORDER BY`, `LIMIT` and `DISTINCT`;
* the write path (`callBearUrl`, `createNote`, `replaceNoteContent`) as
  pure functions returning the dispatched action and parameter list, with
  the `open` facility abstracted as an explicit argument.
-/

namespace BearMcp

/-! ## Sorting (model of SQL ORDER BY) -/

def insertSorted {α : Type} (le : α → α → Bool) (x : α) : List α → List α
  | [] => [x]
  | y :: ys => if le x y then x :: y :: ys else y :: insertSorted le x ys

def sortedBy {α : Type} (le : α → α → Bool) (l : List α) : List α :=
  l.foldr (insertSorted le) []

/-! ## SQLite LIKE semantics

`LIKE` in SQLite is case-insensitive for ASCII letters and treats `%` as
"any sequence of characters" and `_` as "any single character".  The read
path builds patterns of the shape `%filter%` by string interpolation, so a
filter containing `%` or `_` is interpreted as wildcards.
-/

def suffixAny (f : List Char → Bool) : List Char → Bool
  | [] => f []
  | d :: s => f (d :: s) || suffixAny f s

def likeMatch : List Char → List Char → Bool
  | [], s => s.isEmpty
  | c :: p, s =>
    if c = '%' then suffixAny (likeMatch p) s
    else
      match s with
      | [] => false
      | d :: s1 => (if c = '_' then true else c.toLower == d.toLower) && likeMatch p s1

def noWildcards (p : List Char) : Prop :=
  ∀ c ∈ p, c ≠ '%' ∧ c ≠ '_'

instance (p : List Char) : Decidable (noWildcards p) := by
  unfold noWildcards
  infer_instance

/-! ## Case-insensitive substring containment (the spec-side notion) -/

def startsWithL : List Char → List Char → Bool
  | [], _ => true
  | _ :: _, [] => false
  | c :: p, d :: s => c == d && startsWithL p s

def hasRun (needle : List Char) : List Char → Bool
  | [] => needle.isEmpty
  | d :: s => startsWithL needle (d :: s) || hasRun needle s

/-- `containsCI hay needle` holds when `needle` occurs inside `hay` after
ASCII lowercasing of both, i.e. "hay contains needle case-insensitively". -/
def containsCI (hay needle : String) : Bool :=
  hasRun (needle.toList.map Char.toLower) (hay.toList.map Char.toLower)

/-! ## Timestamp codec

The queries compute `datetime(ZCREATIONDATE + 978307200, 'unixepoch')`:
the stored Core Data epoch offset plus a fixed 978,307,200-second shift,
interpreted as Unix time and rendered as a calendar timestamp.  The
calendar conversion below is the standard proleptic-Gregorian
civil-from-days algorithm used by SQLite's `unixepoch` interpretation.
-/

structure DateTime where
  year : Int
  month : Nat
  day : Nat
  hour : Nat
  minute : Nat
  second : Nat
deriving DecidableEq, Repr

def civilFromDays (z0 : Int) : Int × Nat × Nat :=
  let z := z0 + 719468
  let era := z.fdiv 146097
  let doe := (z.fmod 146097).toNat
  let yoe := (doe - doe / 1460 + doe / 36524 - doe / 146096) / 365
  let y := (yoe : Int) + era * 400
  let doy := doe - (365 * yoe + yoe / 4 - yoe / 100)
  let mp := (5 * doy + 2) / 153
  let d := doy - (153 * mp + 2) / 5 + 1
  let m := if mp < 10 then mp + 3 else mp - 9
  (if m ≤ 2 then y + 1 else y, m, d)

/-- Standard Unix-time interpretation of a number of seconds as a calendar
timestamp (UTC). -/
def unixToDateTime (t : Int) : DateTime :=
  let days := t.fdiv 86400
  let secs := (t.fmod 86400).toNat
  let ymd := civilFromDays days
  { year := ymd.1, month := ymd.2.1, day := ymd.2.2,
    hour := secs / 3600, minute := secs % 3600 / 60, second := secs % 60 }

/-- The fixed Core Data epoch shift added by every read query. -/
def coreDataEpochShift : Int := 978307200

/-! ## Data model: the Bear SQLite store -/

/-- A row of `ZSFNOTE`. -/
structure NoteRow where
  pk : Nat
  id : String
  title : String
  text : String
  creationDate : Int
  modificationDate : Int
  trashed : Bool
  archived : Bool
deriving DecidableEq, Repr

/-- A row of `ZSFNOTETAG`. -/
structure TagRow where
  pk : Nat
  title : String
deriving DecidableEq, Repr

/-- A row of the `Z_5TAGS` join relation. -/
structure NoteTagRow where
  notePk : Nat
  tagPk : Nat
deriving DecidableEq, Repr

/-- The readable store. -/
structure BearDb where
  notes : List NoteRow
  tags : List TagRow
  noteTags : List NoteTagRow
deriving DecidableEq, Repr

/-- The `Note` domain entity of `bear.ts`.  `content` and `isTrashed` are
optional because list queries do not select those columns. -/
structure Note where
  id : String
  title : String
  content : Option String
  tags : List String
  createdAt : DateTime
  modifiedAt : DateTime
  isTrashed : Option Bool
deriving DecidableEq, Repr

/-- The `Tag` domain entity of `bear.ts`. -/
structure Tag where
  name : String
  noteCount : Nat
deriving DecidableEq, Repr

/-! ## Read path -/

/-- Ascending comparator used for `ORDER BY t.ZTITLE`. -/
def strLe (a b : String) : Bool := decide (a ≤ b)

/-- Descending comparator used for `ORDER BY ZMODIFICATIONDATE DESC`. -/
def modDesc (a b : NoteRow) : Bool := decide (b.modificationDate ≤ a.modificationDate)

/-- Model of `getNoteTagsBatch` restricted to one note identifier: tag
titles joined through `Z_5TAGS` and `ZSFNOTE` by the note's
`ZUNIQUEIDENTIFIER`, ordered by `t.ZTITLE`. -/
def tagsForId (db : BearDb) (id : String) : List String :=
  sortedBy strLe
    ((db.tags.filter (fun t =>
        db.noteTags.any (fun nt =>
          nt.tagPk == t.pk &&
            db.notes.any (fun n => n.pk == nt.notePk && n.id == id)))).map
      (fun t => t.title))

/-- The interpolated pattern `%filter%` applied by `LIKE`. -/
def sqlLikeContains (filter s : String) : Bool :=
  likeMatch ('%' :: (filter.toList ++ ['%'])) s.toList

/-- Whether a note row joins to a tag row whose title matches
`LIKE '%tag%'`. -/
def rowHasLikeTag (db : BearDb) (n : NoteRow) (tag : String) : Bool :=
  db.noteTags.any (fun nt =>
    nt.notePk == n.pk &&
      db.tags.any (fun t => t.pk == nt.tagPk && sqlLikeContains tag t.title))

/-- Rows produced by the tag branch of `searchNotes`: `SELECT DISTINCT`
joined through `Z_5TAGS`, filtered by `LIKE`, non-trashed, non-archived,
ordered by modification date descending, `LIMIT 100`. -/
def tagSearchRows (db : BearDb) (tag : String) : List NoteRow :=
  (sortedBy modDesc
    (db.notes.filter (fun n => !n.trashed && !n.archived && rowHasLikeTag db n tag))).take 100

/-- Rows produced by the free-text branch of `searchNotes`: title or body
matched by `LIKE '%term%'`, non-trashed, non-archived, ordered by
modification date descending, `LIMIT 100`. -/
def termSearchRows (db : BearDb) (term : String) : List NoteRow :=
  (sortedBy modDesc
    (db.notes.filter (fun n =>
      (sqlLikeContains term n.title || sqlLikeContains term n.text) &&
        !n.trashed && !n.archived))).take 100

/-- Rows produced by the browse-recent branch of `searchNotes`:
non-trashed, non-archived, ordered by modification date descending,
`LIMIT 50`. -/
def recentRows (db : BearDb) : List NoteRow :=
  (sortedBy modDesc (db.notes.filter (fun n => !n.trashed && !n.archived))).take 50

/-- The row-to-entity mapping applied to every `searchNotes` result:
tags come from the batched lookup and `content` is explicitly dropped
(`content: undefined` in the source). -/
def mkSearchNote (db : BearDb) (n : NoteRow) : Note :=
  { id := n.id, title := n.title, content := none,
    tags := tagsForId db n.id,
    createdAt := unixToDateTime (n.creationDate + coreDataEpochShift),
    modifiedAt := unixToDateTime (n.modificationDate + coreDataEpochShift),
    isTrashed := some n.trashed }

/-- JavaScript truthiness of an optional string parameter: `undefined`
and the empty string are falsy. -/
def truthy : Option String → Bool
  | some s => decide (s ≠ "")
  | none => false

/-- Model of `searchNotes(term?, tag?)`: the tag branch is selected when
`tag` is truthy, else the term branch when `term` is truthy, else the
browse-recent branch. -/
def searchNotes (db : BearDb) (term tag : Option String) : List Note :=
  if truthy tag then
    (tagSearchRows db (tag.getD "")).map (mkSearchNote db)
  else if truthy term then
    (termSearchRows db (term.getD "")).map (mkSearchNote db)
  else
    (recentRows db).map (mkSearchNote db)

/-- Model of `getNoteContent(noteId)`: single-row lookup by
`ZUNIQUEIDENTIFIER`; `null` (here `none`) when no row matches, otherwise
the full entity including body text and tags. -/
def getNoteContent (db : BearDb) (noteId : String) : Option Note :=
  match db.notes.find? (fun n => n.id == noteId) with
  | none => none
  | some n =>
    some
      { id := n.id, title := n.title, content := some n.text,
        tags := tagsForId db n.id,
        createdAt := unixToDateTime (n.creationDate + coreDataEpochShift),
        modifiedAt := unixToDateTime (n.modificationDate + coreDataEpochShift),
        isTrashed := some n.trashed }

/-- SQLite `LOWER` (ASCII case folding). -/
def sqlLower (s : String) : List Char := s.toList.map Char.toLower

/-- Model of `listNotesByTag(tag)`: exact case-insensitive tag-name match
(`LOWER(t.ZTITLE) = LOWER(?)`), non-trashed, non-archived, ordered by
modification date descending, `LIMIT 100`; neither `ZTEXT` nor `ZTRASHED`
is selected. -/
def listNotesByTag (db : BearDb) (tag : String) : List Note :=
  ((sortedBy modDesc
      (db.notes.filter (fun n =>
        !n.trashed && !n.archived &&
          db.noteTags.any (fun nt =>
            nt.notePk == n.pk &&
              db.tags.any (fun t =>
                t.pk == nt.tagPk && sqlLower t.title == sqlLower tag))))).take 100).map
    (fun n =>
      { id := n.id, title := n.title, content := none,
        tags := tagsForId db n.id,
        createdAt := unixToDateTime (n.creationDate + coreDataEpochShift),
        modifiedAt := unixToDateTime (n.modificationDate + coreDataEpochShift),
        isTrashed := none })

/-- Model of `listArchivedNotes()`: `ZARCHIVED = 1 AND ZTRASHED = 0`,
ordered by modification date descending, `LIMIT 100`; neither `ZTEXT` nor
`ZTRASHED` is selected. -/
def listArchivedNotes (db : BearDb) : List Note :=
  ((sortedBy modDesc (db.notes.filter (fun n => n.archived && !n.trashed))).take 100).map
    (fun n =>
      { id := n.id, title := n.title, content := none,
        tags := tagsForId db n.id,
        createdAt := unixToDateTime (n.creationDate + coreDataEpochShift),
        modifiedAt := unixToDateTime (n.modificationDate + coreDataEpochShift),
        isTrashed := none })

/-- Whether a note row joins to a tag row with exactly this title
(`GROUP BY t.ZTITLE` groups tag rows by their title text). -/
def noteHasTagNamed (db : BearDb) (n : NoteRow) (name : String) : Bool :=
  db.noteTags.any (fun nt =>
    nt.notePk == n.pk && db.tags.any (fun t => t.pk == nt.tagPk && t.title == name))

/-- The per-group count of `getAllTags`:
`COUNT(DISTINCT CASE WHEN n.ZTRASHED = 0 AND n.ZARCHIVED = 0 THEN n.Z_PK END)`
— the number of distinct qualifying note primary keys joined to the tag
title. -/
def qualCount (db : BearDb) (name : String) : Nat :=
  (((db.notes.filter (fun n =>
        !n.trashed && !n.archived && noteHasTagNamed db n name)).map
      (fun n => n.pk)).dedup).length

/-- The specification-side count: the number of non-trashed, non-archived
notes bearing the tag. -/
def specTagCount (db : BearDb) (name : String) : Nat :=
  (db.notes.filter (fun n =>
    !n.trashed && !n.archived && noteHasTagNamed db n name)).length

/-- Model of `getAllTags()`: tag titles grouped, counted, kept only with
`HAVING noteCount > 0`, ordered by title. -/
def getAllTags (db : BearDb) : List Tag :=
  ((sortedBy strLe ((db.tags.map (fun t => t.title)).dedup)).filter
      (fun name => decide (0 < qualCount db name))).map
    (fun name => { name := name, noteCount := qualCount db name })

/-! ## Write path (callback-URL action invoker) -/

/-- Characters that `encodeURIComponent` leaves unescaped. -/
def isUnescapedURI (c : Char) : Bool :=
  c.isAlpha || c.isDigit ||
    c ∈ ['-', '_', '.', '!', '~', '*', '\'', '(', ')']

def hexDigit (n : Nat) : Char :=
  if n < 10 then Char.ofNat (48 + n) else Char.ofNat (55 + n)

/-- UTF-8 bytes of a character, from its code point. -/
def utf8Bytes (c : Char) : List Nat :=
  let n := c.toNat
  if n < 128 then [n]
  else if n < 2048 then [192 + n / 64, 128 + n % 64]
  else if n < 65536 then [224 + n / 4096, 128 + n / 64 % 64, 128 + n % 64]
  else [240 + n / 262144, 128 + n / 4096 % 64, 128 + n / 64 % 64, 128 + n % 64]

def percentByte (b : Nat) : List Char :=
  ['%', hexDigit (b / 16), hexDigit (b % 16)]

/-- Model of JavaScript `encodeURIComponent`. -/
def encodeURIComponent (s : String) : String :=
  String.mk
    (s.toList.flatMap (fun c =>
      if isUnescapedURI c then [c] else (utf8Bytes c).flatMap percentByte))

/-- The callback URL built by `callBearUrl`:
`bear://x-callback-url/<action>?<k=encodeURIComponent(v)&...>`. -/
def bearUrl (action : String) (params : List (String × String)) : String :=
  "bear://x-callback-url/" ++ action ++ "?" ++
    String.intercalate "&"
      (params.map (fun kv => kv.1 ++ "=" ++ encodeURIComponent kv.2))

/-- The `BearError` class: a message and an optional underlying cause.
It has no field holding the action parameters. -/
structure BearError where
  message : String
  cause : Option String
deriving DecidableEq, Repr

/-- Model of `callBearUrl(action, params)`.  The platform's URL-opening
facility (`execFileAsync("open", [url])`) is abstracted as `openF`; its
failure value is the underlying cause.  On dispatch failure the error is
wrapped as `BearError` with the action name in the message and the cause
attached; on dispatch success the call returns plain success without any
confirmation of the host application's mutation. -/
def callBearUrl (openF : String → Except String Unit) (action : String)
    (params : List (String × String)) : Except BearError Unit :=
  match openF (bearUrl action params) with
  | Except.ok _ => Except.ok ()
  | Except.error e =>
    Except.error { message := "Failed to call Bear action: " ++ action, cause := some e }

/-- The `#tag` serialization shared by `createNote`: hashtag-prefixed
names joined by single spaces. -/
def hashTagLine (tags : List String) : String :=
  String.intercalate " " (tags.map (fun t => "#" ++ t))

/-- The `text` parameter built by `createNote`: when a non-empty tag list
is given, the hashtag line, a blank line, then the body. -/
def createFullText (text : String) (tags : Option (List String)) : String :=
  match tags with
  | some ts => if ts.isEmpty then text else hashTagLine ts ++ "\n\n" ++ text
  | none => text

/-- The action and parameters dispatched by `createNote(title, text, tags)`. -/
def createNoteDispatch (title text : String) (tags : Option (List String)) :
    String × List (String × String) :=
  ("create", [("title", title), ("text", createFullText text tags)])

/-- The `text` parameter built by `replaceNoteContent` (`bear.ts` lines
65–73): the function takes only `(noteId, text, tags)` — it has no title
parameter — and produces the tag line (when tags are given), a blank
line, then the body. -/
def replaceFullText (text : String) (tags : Option (List String)) : String :=
  match tags with
  | some ts => if ts.isEmpty then text else hashTagLine ts ++ "\n\n" ++ text
  | none => text

/-- The action and parameters dispatched by
`replaceNoteContent(noteId, text, tags)`. -/
def replaceNoteContentDispatch (noteId text : String) (tags : Option (List String)) :
    String × List (String × String) :=
  ("add-text", [("id", noteId), ("text", replaceFullText text tags), ("mode", "replace_all")])

/-! ## Tool layer (server.ts) -/

/-- Outcome of the `bear_get_note` tool handler. -/
inductive GetNoteResult where
  | found (note : Note)
  | notFound (noteId : String)
deriving DecidableEq, Repr

/-- Model of the `bear_get_note` tool: a `null` from `getNoteContent`
becomes an explicit error-flagged "Note not found" payload; no exception
escapes. -/
def bearGetNote (db : BearDb) (noteId : String) : GetNoteResult :=
  match getNoteContent db noteId with
  | none => GetNoteResult.notFound noteId
  | some note => GetNoteResult.found note

/-! ## Concrete stores used to evaluate the operations -/

/-- Placeholder entity used with `List.getD`. -/
def blankNote : Note :=
  { id := "", title := "", content := none, tags := [],
    createdAt := unixToDateTime 0, modifiedAt := unixToDateTime 0, isTrashed := none }

/-- A small store: note `N1` (tagged `Work`, active) and note `N2`
(archived). -/
def wDb : BearDb :=
  { notes :=
      [{ pk := 1, id := "N1", title := "Project Plan", text := "world",
         creationDate := 0, modificationDate := 200, trashed := false, archived := false },
       { pk := 2, id := "N2", title := "Old stuff", text := "zzz",
         creationDate := 10, modificationDate := 60, trashed := false, archived := true }],
    tags := [{ pk := 1, title := "Work" }],
    noteTags := [{ notePk := 1, tagPk := 1 }, { notePk := 2, tagPk := 1 }] }

/-- A store with one note tagged `a`, used to exercise the `_` wildcard of
`LIKE`. -/
def cDbWild : BearDb :=
  { notes :=
      [{ pk := 1, id := "N1", title := "Hello", text := "world",
         creationDate := 0, modificationDate := 0, trashed := false, archived := false }],
    tags := [{ pk := 1, title := "a" }],
    noteTags := [{ notePk := 1, tagPk := 1 }] }

/-- A store with one untagged note whose title and body do not contain
`x`, used to exercise the empty-string tag filter. -/
def cDbEmptyTag : BearDb :=
  { notes :=
      [{ pk := 1, id := "N1", title := "y", text := "y",
         creationDate := 0, modificationDate := 0, trashed := false, archived := false }],
    tags := [],
    noteTags := [] }

/-- First result of the witness tag search. -/
def wTagNote : Note := (searchNotes wDb none (some "work")).getD 0 blankNote

/-- First result of the witness browse-recent search. -/
def wRecentNote : Note := (searchNotes wDb none none).getD 0 blankNote

/-! ## Helper lemmas -/

theorem sortedBy_cons {α : Type} (le : α → α → Bool) (y : α) (ys : List α) :
    sortedBy le (y :: ys) = insertSorted le y (sortedBy le ys) := rfl

theorem mem_insertSorted {α : Type} (le : α → α → Bool) (x a : α) (l : List α) :
    a ∈ insertSorted le x l ↔ a = x ∨ a ∈ l := by
  induction l with
  | nil => simp [insertSorted]
  | cons y ys ih =>
    by_cases h : le x y
    · simp [insertSorted, h]
    · simp only [insertSorted, h, if_false, Bool.false_eq_true, List.mem_cons, ih]
      tauto

theorem mem_sortedBy {α : Type} (le : α → α → Bool) (a : α) (l : List α) :
    a ∈ sortedBy le l ↔ a ∈ l := by
  induction l with
  | nil => simp [sortedBy]
  | cons y ys ih =>
    rw [sortedBy_cons, mem_insertSorted, ih]
    simp

theorem pairwise_insertSorted {α : Type} (le : α → α → Bool)
    (hcomp : ∀ a b, le a b = false → le b a = true)
    (htrans : ∀ a b c, le a b = true → le b c = true → le a c = true)
    (x : α) (l : List α) (hl : l.Pairwise (fun a b => le a b = true)) :
    (insertSorted le x l).Pairwise (fun a b => le a b = true) := by
  induction l with
  | nil => simp [insertSorted]
  | cons y ys ih =>
    rcases List.pairwise_cons.mp hl with ⟨hy, hys⟩
    by_cases h : le x y
    · simp only [insertSorted, h, if_true]
      refine List.pairwise_cons.mpr ⟨?_, hl⟩
      intro b hb
      rcases List.mem_cons.mp hb with rfl | hb
      · exact h
      · exact htrans x y b h (hy b hb)
    · have h' : le x y = false := by
        cases hxy : le x y
        · rfl
        · exact absurd hxy h
      simp only [insertSorted, h', if_false, Bool.false_eq_true]
      refine List.pairwise_cons.mpr ⟨?_, ih hys⟩
      intro b hb
      rcases (mem_insertSorted le x b ys).mp hb with hbx | hb
      · rw [hbx]; exact hcomp x y h'
      · exact hy b hb

theorem pairwise_sortedBy {α : Type} (le : α → α → Bool)
    (hcomp : ∀ a b, le a b = false → le b a = true)
    (htrans : ∀ a b c, le a b = true → le b c = true → le a c = true)
    (l : List α) :
    (sortedBy le l).Pairwise (fun a b => le a b = true) := by
  induction l with
  | nil => simp [sortedBy]
  | cons y ys ih =>
    rw [sortedBy_cons]
    exact pairwise_insertSorted le hcomp htrans y _ ih

theorem likeMatch_nil (s : List Char) : likeMatch [] s = s.isEmpty := rfl

theorem likeMatch_pct_nil (p : List Char) :
    likeMatch ('%' :: p) [] = likeMatch p [] := rfl

theorem likeMatch_pct_cons (p : List Char) (d : Char) (s : List Char) :
    likeMatch ('%' :: p) (d :: s) =
      (likeMatch p (d :: s) || likeMatch ('%' :: p) s) := rfl

theorem likeMatch_lit_nil (c : Char) (p : List Char) (h : c ≠ '%') :
    likeMatch (c :: p) [] = false := by
  simp [likeMatch, h]

theorem likeMatch_lit_cons (c : Char) (p : List Char) (d : Char) (s : List Char)
    (h : c ≠ '%') (h2 : c ≠ '_') :
    likeMatch (c :: p) (d :: s) = ((c.toLower == d.toLower) && likeMatch p s) := by
  simp [likeMatch, h, h2]

/-- Characters of a wildcard-free LIKE pattern. -/
theorem startsWithL_append (n b : List Char) : startsWithL n (n ++ b) = true := by
  induction n with
  | nil => rfl
  | cons c p ih => simp [startsWithL, ih]

theorem hasRun_of_append (n a b : List Char) : hasRun n (a ++ n ++ b) = true := by
  induction a with
  | nil =>
    cases hn : n with
    | nil =>
      cases b with
      | nil => rfl
      | cons d s => simp [hasRun, startsWithL]
    | cons c p =>
      simp only [List.nil_append]
      have : (c :: p) ++ b = c :: (p ++ b) := rfl
      rw [this]
      simp [hasRun, startsWithL_append (c :: p) b, startsWithL]
      have := startsWithL_append (c :: p) b
      simp [startsWithL] at this
      tauto
  | cons x a1 ih =>
    have hx : (x :: a1) ++ n ++ b = x :: (a1 ++ n ++ b) := by simp
    rw [hx]
    simp only [hasRun]
    rw [ih]
    simp

/-! ## LIKE implies case-insensitive containment (for wildcard-free filters) -/

theorem likeMatch_noWild_eq (p : List Char) (hw : noWildcards p) :
    ∀ s, likeMatch p s = true → p.map Char.toLower = s.map Char.toLower := by
  induction p with
  | nil =>
    intro s h
    rw [likeMatch_nil] at h
    cases s with
    | nil => rfl
    | cons d s1 => simp [List.isEmpty] at h
  | cons c p1 ih =>
    intro s h
    rcases hw c (List.mem_cons_self c p1) with ⟨hc1, hc2⟩
    cases s with
    | nil => rw [likeMatch_lit_nil c p1 hc1] at h; exact absurd h (by simp)
    | cons d s1 =>
      rw [likeMatch_lit_cons c p1 d s1 hc1 hc2, Bool.and_eq_true, beq_iff_eq] at h
      have hw1 : noWildcards p1 := fun x hx => hw x (List.mem_cons_of_mem c hx)
      simp only [List.map_cons, h.1, ih hw1 s1 h.2]

theorem likeMatch_pct_split (p : List Char) :
    ∀ s, likeMatch ('%' :: p) s = true →
      ∃ s1 s2, s = s1 ++ s2 ∧ likeMatch p s2 = true := by
  intro s
  induction s with
  | nil =>
    intro h
    rw [likeMatch_pct_nil] at h
    exact ⟨[], [], rfl, h⟩
  | cons d s1 ih =>
    intro h
    rw [likeMatch_pct_cons, Bool.or_eq_true] at h
    rcases h with h | h
    · exact ⟨[], d :: s1, rfl, h⟩
    · rcases ih h with ⟨a, b, hab, hb⟩
      exact ⟨d :: a, b, by rw [hab]; rfl, hb⟩

theorem likeMatch_tail_pct_split (p : List Char) (hw : noWildcards p) :
    ∀ s, likeMatch (p ++ ['%']) s = true →
      ∃ s1 s2, s = s1 ++ s2 ∧ p.map Char.toLower = s1.map Char.toLower := by
  induction p with
  | nil =>
    intro s _
    exact ⟨[], s, rfl, rfl⟩
  | cons c p1 ih =>
    intro s h
    rcases hw c (List.mem_cons_self c p1) with ⟨hc1, hc2⟩
    cases s with
    | nil =>
      rw [List.cons_append, likeMatch_lit_nil c (p1 ++ ['%']) hc1] at h
      exact absurd h (by simp)
    | cons d s1 =>
      rw [List.cons_append, likeMatch_lit_cons c (p1 ++ ['%']) d s1 hc1 hc2,
        Bool.and_eq_true, beq_iff_eq] at h
      have hw1 : noWildcards p1 := fun x hx => hw x (List.mem_cons_of_mem c hx)
      rcases ih hw1 s1 h.2 with ⟨a, b, hab, hmap⟩
      exact ⟨d :: a, b, by rw [hab]; rfl, by simp only [List.map_cons, h.1, hmap]⟩

/-- A wildcard-free filter matched by the interpolated pattern `%filter%`
occurs in the subject as a case-insensitive substring. -/
theorem likeMatch_implies_containsCI (t s : String)
    (hw : noWildcards t.toList)
    (h : likeMatch ('%' :: (t.toList ++ ['%'])) s.toList = true) :
    containsCI s t = true := by
  rcases likeMatch_pct_split _ _ h with ⟨s1, s2, hs, h2⟩
  rcases likeMatch_tail_pct_split _ hw _ h2 with ⟨a, b, hab, hmap⟩
  unfold containsCI
  have : s.toList.map Char.toLower =
      s1.map Char.toLower ++ (t.toList.map Char.toLower ++ b.map Char.toLower) := by
    rw [hs, hab]
    simp only [List.map_append]
    rw [hmap]
  rw [this]
  have := hasRun_of_append (t.toList.map Char.toLower) (s1.map Char.toLower)
    (b.map Char.toLower)
  rwa [List.append_assoc] at this

theorem modDesc_comp (a b : NoteRow) (h : modDesc a b = false) : modDesc b a = true := by
  unfold modDesc at *
  rw [decide_eq_false_iff_not] at h
  exact decide_eq_true (le_of_not_le h)

theorem modDesc_trans (a b c : NoteRow) (h1 : modDesc a b = true) (h2 : modDesc b c = true) :
    modDesc a c = true := by
  unfold modDesc at *
  rw [decide_eq_true_eq] at h1 h2
  exact decide_eq_true (le_trans h2 h1)

theorem strLe_comp (a b : String) (h : strLe a b = false) : strLe b a = true := by
  unfold strLe at *
  rw [decide_eq_false_iff_not] at h
  exact decide_eq_true (le_of_not_le h)

theorem strLe_trans (a b c : String) (h1 : strLe a b = true) (h2 : strLe b c = true) :
    strLe a c = true := by
  unfold strLe at *
  rw [decide_eq_true_eq] at h1 h2
  exact decide_eq_true (le_trans h1 h2)

theorem pairwise_rows_modDesc (l : List NoteRow) (n : Nat) :
    ((sortedBy modDesc l).take n).Pairwise
      (fun a b => b.modificationDate ≤ a.modificationDate) := by
  have h := pairwise_sortedBy modDesc modDesc_comp modDesc_trans l
  have h2 := List.Pairwise.sublist (List.take_sublist n _) h
  exact h2.imp (fun hab => by
    have := of_decide_eq_true hab
    exact this)

theorem mem_take_sortedBy_filter {α : Type} (le : α → α → Bool) (p : α → Bool)
    (l : List α) (n : Nat) (a : α) (h : a ∈ (sortedBy le (l.filter p)).take n) :
    a ∈ l ∧ p a = true := by
  have h1 := List.take_subset n _ h
  have h2 := (mem_sortedBy le a _).mp h1
  exact List.mem_filter.mp h2

theorem title_mem_tagsForId (db : BearDb) (n : NoteRow) (t : TagRow) (nt : NoteTagRow)
    (hn : n ∈ db.notes) (ht : t ∈ db.tags) (hnt : nt ∈ db.noteTags)
    (h1 : nt.notePk = n.pk) (h2 : nt.tagPk = t.pk) :
    t.title ∈ tagsForId db n.id := by
  unfold tagsForId
  rw [mem_sortedBy]
  apply List.mem_map.mpr
  refine ⟨t, ?_, rfl⟩
  apply List.mem_filter.mpr
  refine ⟨ht, ?_⟩
  apply List.any_eq_true.mpr
  refine ⟨nt, hnt, ?_⟩
  rw [Bool.and_eq_true]
  refine ⟨beq_iff_eq.mpr h2, ?_⟩
  apply List.any_eq_true.mpr
  refine ⟨n, hn, ?_⟩
  rw [Bool.and_eq_true]
  exact ⟨beq_iff_eq.mpr h1.symm, beq_iff_eq.mpr rfl⟩

/-! ## Claims -/

/-- C1.  The spec and the tool description of `bear_replace_content`
promise that the text parameter passed to the write dispatch is
serialized as title line first, then tag line(s), then body.  The
`replaceNoteContent` implementation (`bear.ts` lines 65–73) has no title
parameter at all: at the failing input (noteId `N1`, title `X`, body
`body`, tags `a`, `b`) the dispatched text parameter is
`"#a #b\n\nbody"` — tag line then body, with the title nowhere in it
(not even case-insensitively).  The tool handler (lines 462–482) passes
`(noteId, title, text, tags)` — four arguments to a three-parameter
function — so the code contradicts its own tool description. -/
theorem replace_content_omits_title :
    replaceNoteContentDispatch "N1" "body" (some ["a", "b"]) =
        ("add-text", [("id", "N1"), ("text", "#a #b\n\nbody"), ("mode", "replace_all")])
      ∧ containsCI "#a #b\n\nbody" "X" = false := by
  decide

/-- C3 (counterexample).  The typed error raised when the URL-open
dispatch fails does not carry the parameters: two calls with the same
action but different parameter maps, failing with the same underlying
cause, produce identical `BearError` values.  Only the log statement
receives the parameters. -/
theorem action_error_params_cex :
    callBearUrl (fun _ => Except.error "spawn open ENOENT") "add-text"
          [("id", "N1"), ("text", "a")] =
        callBearUrl (fun _ => Except.error "spawn open ENOENT") "add-text"
          [("id", "N1"), ("text", "b")]
      ∧ ([("id", "N1"), ("text", "a")] : List (String × String)) ≠
          [("id", "N1"), ("text", "b")] :=
  ⟨rfl, by decide⟩

/-- C3 (amended).  If the URL-open dispatch itself errors, the write path
raises a typed action-call-failed `BearError` carrying the action name
(embedded in its message) and the underlying cause — but not the
parameters, which are only logged; if the dispatch succeeds, the
operation returns success without confirming that the host application
completed the mutation. -/
theorem action_error_wrapping (openFail openOk : String → Except String Unit)
    (action : String) (params : List (String × String)) (e : String)
    (hf : openFail (bearUrl action params) = Except.error e)
    (ho : openOk (bearUrl action params) = Except.ok ()) :
    callBearUrl openFail action params =
        Except.error { message := "Failed to call Bear action: " ++ action, cause := some e }
      ∧ callBearUrl openOk action params = Except.ok () := by
  unfold callBearUrl
  rw [hf, ho]
  exact ⟨rfl, rfl⟩

theorem action_error_wrapping_witness :
    callBearUrl (fun _ => Except.error "spawn open ENOENT") "add-text" [("id", "N1")] =
        Except.error { message := "Failed to call Bear action: " ++ "add-text",
                       cause := some "spawn open ENOENT" }
      ∧ callBearUrl (fun _ => Except.ok ()) "add-text" [("id", "N1")] = Except.ok () :=
  action_error_wrapping (fun _ => Except.error "spawn open ENOENT") (fun _ => Except.ok ())
    "add-text" [("id", "N1")] "spawn open ENOENT" rfl rfl

/-- C4.  For every note identifier absent from the store, `getNoteContent`
returns the explicit not-found value (`none` / `null`) and the
`bear_get_note` tool surfaces an explicit not-found payload; the model is
a total function, so no exception escapes to the caller. -/
theorem get_note_not_found (db : BearDb) (noteId : String)
    (h : ∀ row ∈ db.notes, row.id ≠ noteId) :
    getNoteContent db noteId = none
      ∧ bearGetNote db noteId = GetNoteResult.notFound noteId := by
  have hf : db.notes.find? (fun n => n.id == noteId) = none := by
    apply List.find?_eq_none.mpr
    intro x hx
    simp [h x hx]
  constructor
  · unfold getNoteContent
    rw [hf]
  · unfold bearGetNote getNoteContent
    rw [hf]

theorem get_note_not_found_witness :
    getNoteContent wDb "NOPE" = none
      ∧ bearGetNote wDb "NOPE" = GetNoteResult.notFound "NOPE" :=
  get_note_not_found wDb "NOPE" (by decide)

/-- C5.  For every create-note call with a non-empty tag list, the `text`
parameter of the dispatched `create` action is the tag names prefixed
with `#` and joined by single spaces, followed by a blank line, followed
by the body text. -/
theorem create_note_tag_serialization (title text : String) (tags : List String)
    (h : tags ≠ []) :
    createNoteDispatch title text (some tags) =
      ("create",
        [("title", title),
         ("text",
          String.intercalate " " (tags.map (fun t => "#" ++ t)) ++ "\n\n" ++ text)]) := by
  unfold createNoteDispatch createFullText hashTagLine
  have hne : tags.isEmpty = false := by
    cases tags with
    | nil => exact absurd rfl h
    | cons a l => rfl
  simp [hne]

theorem create_note_tag_serialization_witness :
    createNoteDispatch "X" "body" (some ["a", "b"]) =
      ("create", [("title", "X"), ("text", "#a #b\n\nbody")]) :=
  (create_note_tag_serialization "X" "body" ["a", "b"] (by decide)).trans (by decide)

/-- C10 (counterexample).  An empty-string tag filter is *provided* but
falsy in JavaScript, so the tag branch is not taken: searching with a
term and the empty tag filter uses the free-text branch, while the empty
tag filter alone falls through to the browse-recent branch, and the two
results differ. -/
theorem tag_precedence_cex :
    searchNotes cDbEmptyTag (some "x") (some "") ≠
      searchNotes cDbEmptyTag none (some "") := by
  decide

/-- C10 (amended).  For every call to search where both a free-text term
and a *non-empty* tag filter are provided, the result equals the result
of searching with the tag filter alone: the tag branch takes precedence
and the free-text term is ignored.  (An empty-string tag filter is falsy
and does not select the tag branch.) -/
theorem tag_precedence_amended (db : BearDb) (term tag : String) (h : tag ≠ "") :
    searchNotes db (some term) (some tag) = searchNotes db none (some tag) := by
  unfold searchNotes
  have ht : truthy (some tag) = true := by simp [truthy, h]
  rw [ht]
  simp

theorem tag_precedence_amended_witness :
    searchNotes wDb (some "x") (some "work") = searchNotes wDb none (some "work") :=
  tag_precedence_amended wDb "x" "work" (by decide)

/-- C8.  Every timestamp returned by the individual-fetch read operation
is the standard Unix-time calendar interpretation of the stored Core Data
epoch value plus the fixed 978,307,200-second shift. -/
theorem timestamp_offset_conversion (db : BearDb) (noteId : String) (note : Note)
    (row : NoteRow) (hnd : (db.notes.map (fun n => n.id)).Nodup)
    (hrow : row ∈ db.notes) (hid : row.id = noteId)
    (hget : getNoteContent db noteId = some note) :
    note.createdAt = unixToDateTime (row.creationDate + coreDataEpochShift)
      ∧ note.modifiedAt = unixToDateTime (row.modificationDate + coreDataEpochShift)
      ∧ coreDataEpochShift = 978307200 := by
  unfold getNoteContent at hget
  cases hfind : db.notes.find? (fun n => n.id == noteId) with
  | none =>
    rw [hfind] at hget
    exact absurd hget (by simp)
  | some r =>
    rw [hfind] at hget
    have hr1 : r ∈ db.notes := List.mem_of_find?_eq_some hfind
    have hr2 : r.id = noteId := by
      have hp := List.find?_some hfind
      simpa using hp
    have hreq : r = row := List.inj_on_of_nodup_map hnd hr1 hrow (by rw [hr2, hid])
    subst hreq
    have hn := (Option.some.inj hget).symm
    exact ⟨by rw [hn], by rw [hn], rfl⟩

theorem timestamp_offset_conversion_witness :
    ((getNoteContent wDb "N1").getD blankNote).createdAt =
        unixToDateTime (0 + coreDataEpochShift)
      ∧ ((getNoteContent wDb "N1").getD blankNote).modifiedAt =
        unixToDateTime (200 + coreDataEpochShift)
      ∧ coreDataEpochShift = 978307200 :=
  timestamp_offset_conversion wDb "N1" ((getNoteContent wDb "N1").getD blankNote)
    { pk := 1, id := "N1", title := "Project Plan", text := "world",
      creationDate := 0, modificationDate := 200, trashed := false, archived := false }
    (by decide) (by decide) (by decide) (by decide)

/-- C9.  Every note returned by search (any branch), list-by-tag or
list-archived has an absent body content field; body content is present
exactly when a note is fetched individually by identifier. -/
theorem content_only_on_individual_fetch (db : BearDb) (term tag : Option String)
    (tg noteId : String) (n1 n2 n3 n4 : Note) :
    (n1 ∈ searchNotes db term tag → n1.content = none)
      ∧ (n2 ∈ listNotesByTag db tg → n2.content = none)
      ∧ (n3 ∈ listArchivedNotes db → n3.content = none)
      ∧ (getNoteContent db noteId = some n4 → n4.content.isSome = true) := by
  refine ⟨?_, ?_, ?_, ?_⟩
  · intro h
    unfold searchNotes at h
    split at h
    · rcases List.mem_map.mp h with ⟨r, _, hr⟩
      rw [← hr]
      rfl
    · split at h
      · rcases List.mem_map.mp h with ⟨r, _, hr⟩
        rw [← hr]
        rfl
      · rcases List.mem_map.mp h with ⟨r, _, hr⟩
        rw [← hr]
        rfl
  · intro h
    unfold listNotesByTag at h
    rcases List.mem_map.mp h with ⟨r, _, hr⟩
    rw [← hr]
  · intro h
    unfold listArchivedNotes at h
    rcases List.mem_map.mp h with ⟨r, _, hr⟩
    rw [← hr]
  · intro h
    unfold getNoteContent at h
    cases hfind : db.notes.find? (fun n => n.id == noteId) with
    | none =>
      rw [hfind] at h
      exact absurd h (by simp)
    | some r =>
      rw [hfind] at h
      rw [← Option.some.inj h]
      rfl

theorem content_only_on_individual_fetch_witness :
    ((searchNotes wDb none none).getD 0 blankNote).content = none
      ∧ ((listNotesByTag wDb "work").getD 0 blankNote).content = none
      ∧ ((listArchivedNotes wDb).getD 0 blankNote).content = none
      ∧ ((getNoteContent wDb "N1").getD blankNote).content.isSome = true := by
  have h := content_only_on_individual_fetch wDb none none "work" "N1"
    ((searchNotes wDb none none).getD 0 blankNote)
    ((listNotesByTag wDb "work").getD 0 blankNote)
    ((listArchivedNotes wDb).getD 0 blankNote)
    ((getNoteContent wDb "N1").getD blankNote)
  exact ⟨h.1 (by decide), h.2.1 (by decide), h.2.2.1 (by decide), h.2.2.2 (by decide)⟩

/-- C7.  A search with neither a free-text term nor a tag filter is served
by the browse-recent branch (the model is total: no error is raised): it
returns at most 50 notes, every returned note is non-trashed and
non-archived, and the underlying rows are ordered by modification time
descending. -/
theorem browse_recent_bounds (db : BearDb) (note : Note)
    (h : note ∈ searchNotes db none none) :
    note.isTrashed = some false
      ∧ (∃ row ∈ db.notes, row.id = note.id ∧ row.trashed = false ∧ row.archived = false)
      ∧ (searchNotes db none none).length ≤ 50
      ∧ searchNotes db none none = (recentRows db).map (mkSearchNote db)
      ∧ (recentRows db).Pairwise (fun a b => b.modificationDate ≤ a.modificationDate) := by
  have hmap : searchNotes db none none = (recentRows db).map (mkSearchNote db) := by
    unfold searchNotes
    rfl
  rw [hmap] at h
  rcases List.mem_map.mp h with ⟨row, hrowmem, hrow⟩
  unfold recentRows at hrowmem
  obtain ⟨hmem, hp⟩ := mem_take_sortedBy_filter modDesc _ db.notes 50 row hrowmem
  simp only [Bool.and_eq_true, Bool.not_eq_true'] at hp
  refine ⟨?_, ⟨row, hmem, ?_, hp.1, hp.2⟩, ?_, hmap, ?_⟩
  · rw [← hrow]
    simp [mkSearchNote, hp.1]
  · rw [← hrow]
    rfl
  · rw [hmap, List.length_map]
    unfold recentRows
    rw [List.length_take]
    exact min_le_left _ _
  · unfold recentRows
    exact pairwise_rows_modDesc _ 50

theorem browse_recent_bounds_witness :
    wRecentNote.isTrashed = some false
      ∧ (∃ row ∈ wDb.notes, row.id = wRecentNote.id ∧ row.trashed = false ∧ row.archived = false)
      ∧ (searchNotes wDb none none).length ≤ 50
      ∧ searchNotes wDb none none = (recentRows wDb).map (mkSearchNote wDb)
      ∧ (recentRows wDb).Pairwise (fun a b => b.modificationDate ≤ a.modificationDate) :=
  browse_recent_bounds wDb wRecentNote (by decide)

/-- C2 (counterexample).  The tag filter is applied as a SQL `LIKE`
pattern, so a filter containing the `_` wildcard selects a note whose
only tag is `a` even though no tag of that note contains `_`. -/
theorem tag_search_wildcard_cex :
    ¬ (∀ note ∈ searchNotes cDbWild none (some "_"),
        ∃ tg ∈ note.tags, containsCI tg "_" = true) := by
  decide

/-- C2 (amended).  For every non-empty tag filter `T` containing no SQL
LIKE wildcard characters (`%`, `_`), every note returned by tag-search
has at least one tag whose name contains `T` case-insensitively, no
returned note is trashed or archived, the result is bounded by 100 notes,
and the underlying rows are ordered by last-modified descending.  (The
empty filter is falsy in JavaScript and does not select the tag branch;
wildcard filters match as LIKE patterns rather than as substrings.) -/
theorem tag_search_amended (db : BearDb) (T : String) (note : Note)
    (hT : T ≠ "") (hw : noWildcards T.toList)
    (h : note ∈ searchNotes db none (some T)) :
    (∃ tg ∈ note.tags, containsCI tg T = true)
      ∧ note.isTrashed = some false
      ∧ (∃ row ∈ db.notes, row.id = note.id ∧ row.trashed = false ∧ row.archived = false)
      ∧ (searchNotes db none (some T)).length ≤ 100
      ∧ searchNotes db none (some T) = (tagSearchRows db T).map (mkSearchNote db)
      ∧ (tagSearchRows db T).Pairwise (fun a b => b.modificationDate ≤ a.modificationDate) := by
  have hmap : searchNotes db none (some T) = (tagSearchRows db T).map (mkSearchNote db) := by
    unfold searchNotes
    have ht : truthy (some T) = true := by simp [truthy, hT]
    rw [ht]
    simp
  rw [hmap] at h
  rcases List.mem_map.mp h with ⟨row, hrowmem, hrow⟩
  unfold tagSearchRows at hrowmem
  obtain ⟨hmem, hp⟩ := mem_take_sortedBy_filter modDesc _ db.notes 100 row hrowmem
  simp only [Bool.and_eq_true, Bool.not_eq_true'] at hp
  obtain ⟨⟨htr, har⟩, hlike⟩ := hp
  unfold rowHasLikeTag at hlike
  rw [List.any_eq_true] at hlike
  obtain ⟨nt, hnt, hnt2⟩ := hlike
  rw [Bool.and_eq_true] at hnt2
  obtain ⟨hntpk, htags⟩ := hnt2
  rw [List.any_eq_true] at htags
  obtain ⟨t, ht, ht2⟩ := htags
  rw [Bool.and_eq_true] at ht2
  obtain ⟨htpk, hlikeT⟩ := ht2
  have hcontain : containsCI t.title T = true := by
    apply likeMatch_implies_containsCI T t.title hw
    unfold sqlLikeContains at hlikeT
    exact hlikeT
  have htitle : t.title ∈ tagsForId db row.id :=
    title_mem_tagsForId db row t nt hmem ht hnt (beq_iff_eq.mp hntpk)
      (beq_iff_eq.mp htpk).symm
  refine ⟨⟨t.title, ?_, hcontain⟩, ?_, ⟨row, hmem, ?_, htr, har⟩, ?_, hmap, ?_⟩
  · rw [← hrow]
    exact htitle
  · rw [← hrow]
    simp [mkSearchNote, htr]
  · rw [← hrow]
    rfl
  · rw [hmap, List.length_map]
    unfold tagSearchRows
    rw [List.length_take]
    exact min_le_left _ _
  · unfold tagSearchRows
    exact pairwise_rows_modDesc _ 100

theorem tag_search_amended_witness :
    (∃ tg ∈ wTagNote.tags, containsCI tg "work" = true)
      ∧ wTagNote.isTrashed = some false
      ∧ (∃ row ∈ wDb.notes, row.id = wTagNote.id ∧ row.trashed = false ∧ row.archived = false)
      ∧ (searchNotes wDb none (some "work")).length ≤ 100
      ∧ searchNotes wDb none (some "work") = (tagSearchRows wDb "work").map (mkSearchNote wDb)
      ∧ (tagSearchRows wDb "work").Pairwise
          (fun a b => b.modificationDate ≤ a.modificationDate) :=
  tag_search_amended wDb "work" wTagNote (by decide) (by decide) (by decide)

theorem qualCount_eq_specTagCount (db : BearDb) (name : String)
    (h : (db.notes.map (fun n => n.pk)).Nodup) :
    qualCount db name = specTagCount db name := by
  unfold qualCount specTagCount
  have hsub :
      ((db.notes.filter (fun n =>
          !n.trashed && !n.archived && noteHasTagNamed db n name)).map
        (fun n => n.pk)).Sublist (db.notes.map (fun n => n.pk)) :=
    List.Sublist.map _ (List.filter_sublist db.notes)
  have hnd := List.Nodup.sublist hsub h
  rw [List.dedup_eq_self.mpr hnd, List.length_map]

/-- C6.  `getAllTags` returns exactly the tags that have at least one
non-trashed, non-archived note: every returned tag exists in the store,
carries the exact count of its qualifying notes and a positive count, a
tag name with a positive qualifying count is always returned, and the
result is ordered by tag name. -/
theorem list_tags_exact (db : BearDb) (t : Tag) (name : String)
    (hnd : (db.notes.map (fun n => n.pk)).Nodup) :
    (t ∈ getAllTags db →
        (∃ tr ∈ db.tags, tr.title = t.name)
          ∧ t.noteCount = specTagCount db t.name ∧ 0 < t.noteCount)
      ∧ ((∃ tr ∈ db.tags, tr.title = name) → 0 < specTagCount db name →
          name ∈ (getAllTags db).map Tag.name)
      ∧ ((getAllTags db).map Tag.name).Pairwise (fun a b => a ≤ b) := by
  have hnames : (getAllTags db).map Tag.name =
      (sortedBy strLe ((db.tags.map (fun t => t.title)).dedup)).filter
        (fun nm => decide (0 < qualCount db nm)) := by
    unfold getAllTags
    rw [List.map_map]
    have hid : (Tag.name ∘ fun nm => ({ name := nm, noteCount := qualCount db nm } : Tag)) =
        id := rfl
    rw [hid, List.map_id]
  refine ⟨?_, ?_, ?_⟩
  · intro ht
    unfold getAllTags at ht
    rcases List.mem_map.mp ht with ⟨nm, hnm, hmk⟩
    rcases List.mem_filter.mp hnm with ⟨hsorted, hpos⟩
    have hmem2 : nm ∈ db.tags.map (fun tr => tr.title) :=
      List.mem_dedup.mp ((mem_sortedBy _ _ _).mp hsorted)
    rcases List.mem_map.mp hmem2 with ⟨tr, htr, htitle⟩
    have hname : t.name = nm := by rw [← hmk]
    have hcnt : t.noteCount = qualCount db nm := by rw [← hmk]
    refine ⟨⟨tr, htr, by rw [htitle, hname]⟩, ?_, ?_⟩
    · rw [hcnt, hname, qualCount_eq_specTagCount db nm hnd]
    · rw [hcnt]
      exact of_decide_eq_true hpos
  · rintro ⟨tr, htr, htitle⟩ hpos
    rw [hnames]
    apply List.mem_filter.mpr
    constructor
    · rw [mem_sortedBy]
      exact List.mem_dedup.mpr (List.mem_map.mpr ⟨tr, htr, htitle⟩)
    · rw [qualCount_eq_specTagCount db name hnd]
      exact decide_eq_true hpos
  · rw [hnames]
    have hpw := pairwise_sortedBy strLe strLe_comp strLe_trans
      ((db.tags.map (fun tr => tr.title)).dedup)
    have hpf :
        ((sortedBy strLe ((db.tags.map (fun tr => tr.title)).dedup)).filter
            (fun nm => decide (0 < qualCount db nm))).Pairwise
          (fun a b => strLe a b = true) :=
      List.Pairwise.sublist (List.filter_sublist _) hpw
    exact hpf.imp (fun hab => of_decide_eq_true hab)

theorem list_tags_exact_witness :
    ("Work" ∈ (getAllTags wDb).map Tag.name)
      ∧ ((getAllTags wDb).map Tag.name).Pairwise (fun a b => a ≤ b) := by
  have h := list_tags_exact wDb { name := "Work", noteCount := 1 } "Work" (by decide)
  exact ⟨h.2.1 (by decide) (by decide), h.2.2⟩

end BearMcp
